import Mathlib

/-!
Verification development for the bmv-quiz repository.

Part 1 embeds the chunked localStorage persistence adapter of
src/client/src/pages/Quiz.tsx (saveToLocalStorage, loadFromLocalStorage).
JavaScript strings are modelled as List Char (character-indexed, as JS
substring is); the storage backend (window.localStorage) is a partial map
from string keys to string values.  JSON.stringify of a JS value is
modelled by jsonStringify on an explicit Json value type; JSON.parse is
abstracted as a parameter where needed, since parsing is a platform
builtin, not repository code.

Part 2 embeds the server-side quiz storage (MemStorage in the repository's
storage module), the zod request validation of shared/schema.ts, the
POST /api/quizzes/sync route handler of src/server/routes.ts, and the
client-side local-edit path (handlePasswordSubmit / handleUpdateQuiz in
Quiz.tsx).
-/

/-- Decimal digit list of a natural number, with structural fuel so that the
kernel can evaluate it.  `natDigitsAux (n+1) n` is the usual decimal
representation, mirroring JavaScript's `${i}` / `Number.prototype.toString`
for natural numbers. -/
def natDigitsAux : Nat → Nat → List Char
  | 0, _ => []
  | fuel + 1, n =>
    if n < 10 then [Nat.digitChar n]
    else natDigitsAux fuel (n / 10) ++ [Nat.digitChar (n % 10)]

/-- Decimal representation of a natural number as a character list. -/
def natDigits (n : Nat) : List Char := natDigitsAux (n + 1) n

/-- Value of a digit character list read in base 10 (48 is the code of '0'). -/
def digitsVal (ds : List Char) : Nat := ds.foldl (fun a c => 10 * a + (c.toNat - 48)) 0

theorem digitsVal_append_singleton (ds : List Char) (c : Char) :
    digitsVal (ds ++ [c]) = 10 * digitsVal ds + (c.toNat - 48) := by
  simp [digitsVal, List.foldl_append]

theorem digitChar_val {d : Nat} (h : d < 10) : (Nat.digitChar d).toNat - 48 = d := by
  interval_cases d <;> decide

theorem digitsVal_natDigitsAux : ∀ fuel n, n < fuel → digitsVal (natDigitsAux fuel n) = n := by
  intro fuel
  induction fuel with
  | zero => intro n h; omega
  | succ f ih =>
    intro n h
    by_cases h10 : n < 10
    · simp [natDigitsAux, h10, digitsVal, digitChar_val h10]
    · have hdiv : n / 10 < n := Nat.div_lt_self (by omega) (by omega)
      have hf : n / 10 < f := by omega
      simp only [natDigitsAux, if_neg h10]
      rw [digitsVal_append_singleton, ih _ hf, digitChar_val (Nat.mod_lt _ (by omega))]
      omega

theorem digitsVal_natDigits (n : Nat) : digitsVal (natDigits n) = n :=
  digitsVal_natDigitsAux (n + 1) n (Nat.lt_succ_self n)

theorem natDigits_injective : Function.Injective natDigits := by
  intro a b h
  have := digitsVal_natDigits a
  rw [h, digitsVal_natDigits] at this
  omega

theorem natDigitsAux_ne_nil (fuel n : Nat) (h : 0 < fuel) : natDigitsAux fuel n ≠ [] := by
  cases fuel with
  | zero => omega
  | succ f =>
    by_cases h10 : n < 10 <;> simp [natDigitsAux, h10]

theorem natDigits_ne_nil (n : Nat) : natDigits n ≠ [] :=
  natDigitsAux_ne_nil (n + 1) n (Nat.succ_pos n)

theorem natDigitsAux_head_digit :
    ∀ fuel n, 0 < fuel → ∃ d rest, d < 10 ∧ natDigitsAux fuel n = Nat.digitChar d :: rest := by
  intro fuel
  induction fuel with
  | zero => intro n h; omega
  | succ f ih =>
    intro n _
    by_cases h10 : n < 10
    · exact ⟨n, [], h10, by simp [natDigitsAux, h10]⟩
    · cases f with
      | zero =>
        refine ⟨n % 10, [], Nat.mod_lt _ (by omega), ?_⟩
        simp [natDigitsAux, h10]
      | succ f' =>
        obtain ⟨d, rest, hd, heq⟩ := ih (n / 10) (Nat.succ_pos f')
        refine ⟨d, rest ++ [Nat.digitChar (n % 10)], hd, ?_⟩
        rw [natDigitsAux, if_neg h10, heq]
        simp

theorem natDigits_head_digit (n : Nat) :
    ∃ d rest, d < 10 ∧ natDigits n = Nat.digitChar d :: rest :=
  natDigitsAux_head_digit (n + 1) n (Nat.succ_pos n)

/-- Whitespace predicate used by the embedding of JavaScript's
`String.prototype.trim` and `parseInt` (ASCII whitespace suffices here). -/
def jsWhitespace (c : Char) : Bool :=
  c = ' ' || c = '\t' || c = '\n' || c = '\r' || c = Char.ofNat 11 || c = Char.ofNat 12

/-- Decimal digit test, as in JavaScript's radix-10 `parseInt`. -/
def isDigitCh (c : Char) : Bool := '0' ≤ c && c ≤ '9'

/-- Leading decimal-digit run of a string, or failure when there is none;
models the digit-consuming core of `parseInt(s, 10)` (NaN becomes `none`). -/
def parseDigits (s : List Char) : Option Nat :=
  let ds := s.takeWhile isDigitCh
  if ds.isEmpty then none else some (digitsVal ds)

/-- Embedding of JavaScript `parseInt(s, 10)`: skip leading whitespace, an
optional sign, then read the leading digit run; `none` models NaN. -/
def jsParseInt (s : List Char) : Option Int :=
  match s.dropWhile jsWhitespace with
  | [] => none
  | c :: rest =>
    if c = '-' then (parseDigits rest).map (fun n => -(n : Int))
    else if c = '+' then (parseDigits rest).map (fun n => (n : Int))
    else (parseDigits (c :: rest)).map (fun n => (n : Int))

theorem natDigits_all_digits (n : Nat) : ∀ c ∈ natDigits n, isDigitCh c = true := by
  have : ∀ fuel m, ∀ c ∈ natDigitsAux fuel m, isDigitCh c = true := by
    intro fuel
    induction fuel with
    | zero => intro m c hc; simp [natDigitsAux] at hc
    | succ f ih =>
      intro m c hc
      by_cases h10 : m < 10
      · simp [natDigitsAux, h10] at hc
        subst hc
        interval_cases m <;> decide
      · simp [natDigitsAux, h10] at hc
        rcases hc with hc | hc
        · exact ih _ _ hc
        · subst hc
          have hlt : m % 10 < 10 := Nat.mod_lt _ (by omega)
          interval_cases h : m % 10 <;> decide
  exact this (n + 1) n

theorem jsParseInt_natDigits (n : Nat) : jsParseInt (natDigits n) = some (n : Int) := by
  obtain ⟨d, rest, hd, heq⟩ := natDigits_head_digit n
  have hnws : jsWhitespace (Nat.digitChar d) = false := by interval_cases d <;> decide
  have hnd : ¬(Nat.digitChar d = '-') ∧ ¬(Nat.digitChar d = '+') := by
    interval_cases d <;> decide
  have hdrop : (natDigits n).dropWhile jsWhitespace = natDigits n := by
    rw [heq, List.dropWhile_cons_of_neg (by simp [hnws])]
  have htake : (natDigits n).takeWhile isDigitCh = natDigits n :=
    List.takeWhile_eq_self_iff.mpr (natDigits_all_digits n)
  have hne : (natDigits n).isEmpty = false := by
    rw [heq]; rfl
  rw [jsParseInt, hdrop, heq]
  simp only [if_neg hnd.1, if_neg hnd.2]
  rw [← heq]
  simp only [parseDigits, htake, hne]
  simp [digitsVal_natDigits n]

/-! ### The storage backend and the key layout of the persistence adapter -/

/-- The storage backend (window.localStorage): a partial map from string keys
to string values.  `none` models a missing key, distinct from an empty
string, exactly as `localStorage.getItem` distinguishes them. -/
def Store : Type := String → Option (List Char)

def emptyStore : Store := fun _ => none

def getItem (st : Store) (k : String) : Option (List Char) := st k

def setItem (st : Store) (k : String) (v : List Char) : Store :=
  fun k' => if k' = k then some v else st k'

def removeItem (st : Store) (k : String) : Store :=
  fun k' => if k' = k then none else st k'

/-- Key of chunk number `i` for logical key `key`: the template string
`` `${key}_chunk_${i}` `` of saveToLocalStorage / loadFromLocalStorage. -/
def chunkKey (key : String) (i : Nat) : String :=
  key ++ "_chunk_" ++ String.mk (natDigits i)

/-- Chunk-count metadata key: the template string `` `${key}_chunks` ``. -/
def chunksKey (key : String) : String := key ++ "_chunks"

/-- The marker prefix written under the main key of a chunked entry
(`'__CHUNKED__'` in Quiz.tsx). -/
def chunkedMark : List Char := "__CHUNKED__".data

/-- The sentinel value stored under the main key by the chunked branch of
saveToLocalStorage: `` `__CHUNKED__${chunks}` ``. -/
def chunkedSentinel (chunks : Nat) : List Char := chunkedMark ++ natDigits chunks

/-- JavaScript `s.substring(start, stop)` on a character list (for the
arguments produced by the chunking loop, where `start ≤ stop`). -/
def jsSubstring (s : List Char) (start stop : Nat) : List Char :=
  (s.take stop).drop start

/-- The chunk-writing loop of saveToLocalStorage:
`for (let i = 0; i < chunks; i++) localStorage.setItem(key_chunk_i, slice)`. -/
def writeChunks (key : String) (s : List Char) (chunkSize : Nat) (st : Store)
    (chunks : Nat) : Store :=
  (List.range chunks).foldl
    (fun t i => setItem t (chunkKey key i)
      (jsSubstring s (i * chunkSize) (i * chunkSize + chunkSize))) st

/-- The chunk-cleanup loop of the direct-save branch of saveToLocalStorage:
`for (let i = 0; i < 20; i++) { if (getItem(key_chunk_i)) removeItem(...) else break }`.
The `fuel` argument counts the remaining iterations (20 at the top call);
a missing or empty (falsy) chunk value breaks out of the loop. -/
def cleanupChunksAux (key : String) : Store → Nat → Nat → Store
  | st, _, 0 => st
  | st, i, fuel + 1 =>
    match getItem st (chunkKey key i) with
    | some c =>
      if c.isEmpty then st
      else cleanupChunksAux key (removeItem st (chunkKey key i)) (i + 1) fuel
    | none => st

/-- Embedding of `saveToLocalStorage(key, data)` from Quiz.tsx, at the level
of the serialized string `jsonString` (the source first computes
`jsonString = JSON.stringify(JSON.parse(JSON.stringify(data)))`).
Returns the updated backend; the source additionally returns `true`, and
`false` only when the backend throws, which the pure map model cannot do. -/
def saveToLocalStorage (st : Store) (key : String) (jsonString : List Char) : Store :=
  if jsonString.length < 2000000 then
    -- direct save, then clean up chunks from previous saves
    let st1 := setItem st key jsonString
    let st2 := cleanupChunksAux key st1 0 20
    -- also clean up the chunks metadata if it exists (truthy check)
    match getItem st2 (chunksKey key) with
    | some c => if c.isEmpty then st2 else removeItem st2 (chunksKey key)
    | none => st2
  else
    -- for large data, split into chunks of 1,000,000 characters
    let chunkSize := 1000000
    let chunks := (jsonString.length + chunkSize - 1) / chunkSize
    let st1 := setItem st (chunksKey key) (natDigits chunks)
    let st2 := writeChunks key jsonString chunkSize st1 chunks
    setItem st2 key (chunkedSentinel chunks)

/-- The chunk-reading loop of loadFromLocalStorage: combine all chunks in
index order; a missing or empty (falsy) chunk throws, modelled by an
absorbing `none`. -/
def readChunks (st : Store) (key : String) (chunks : Nat) : Option (List Char) :=
  (List.range chunks).foldl
    (fun acc i =>
      match acc with
      | none => none
      | some a =>
        match getItem st (chunkKey key i) with
        | some c => if c.isEmpty then none else some (a ++ c)
        | none => none)
    (some [])

/-- Embedding of `loadFromLocalStorage(key, defaultValue)` from Quiz.tsx up
to (but not including) the final `JSON.parse`: `none` is every path on which
the source returns `defaultValue` (missing key, invalid or unparsable chunk
count, missing chunk), `some s` is the recovered serialized string handed to
`JSON.parse`.  A chunk count that parses to NaN leads in the source to
`JSON.parse('')`, which always throws and yields the default, hence `none`. -/
def loadRaw (st : Store) (key : String) : Option (List Char) :=
  match getItem st key with
  | none => none
  | some value =>
    if chunkedMark.isPrefixOf value then
      let cstr :=
        match getItem st (chunksKey key) with
        | some c => if c.isEmpty then ['0'] else c
        | none => ['0']
      match jsParseInt cstr with
      | none => none
      | some n => if n ≤ 0 then none else readChunks st key n.toNat
    else some value

/-- Full embedding of `loadFromLocalStorage(key, defaultValue)`: the final
`JSON.parse` is abstracted as the `parse` parameter (a platform builtin);
every failure path, including a deserialization failure, falls back to the
caller-supplied default. -/
def loadFromLocalStorage {α : Type} (parse : List Char → Option α) (st : Store)
    (key : String) (deflt : α) : α :=
  match loadRaw st key with
  | none => deflt
  | some s =>
    match parse s with
    | some v => v
    | none => deflt

/-! ### Basic facts about the store and the key layout -/

theorem getItem_setItem_self (st : Store) (k : String) (v : List Char) :
    getItem (setItem st k v) k = some v := by
  simp [getItem, setItem]

theorem getItem_setItem_ne (st : Store) (k k' : String) (v : List Char) (h : k' ≠ k) :
    getItem (setItem st k v) k' = getItem st k' := by
  simp [getItem, setItem, h]

theorem getItem_removeItem_self (st : Store) (k : String) :
    getItem (removeItem st k) k = none := by
  simp [getItem, removeItem]

theorem getItem_removeItem_ne (st : Store) (k k' : String) (h : k' ≠ k) :
    getItem (removeItem st k) k' = getItem st k' := by
  simp [getItem, removeItem, h]

theorem chunkKey_data (key : String) (i : Nat) :
    (chunkKey key i).data = key.data ++ ("_chunk_".data ++ natDigits i) := by
  simp [chunkKey, String.data_append]

theorem chunkKey_length (key : String) (i : Nat) :
    (chunkKey key i).length = key.length + (7 + (natDigits i).length) := by
  rw [chunkKey, String.length_append, String.length_append]
  have h7 : ("_chunk_" : String).length = 7 := rfl
  have hmk : (String.mk (natDigits i)).length = (natDigits i).length := rfl
  omega

theorem natDigits_length_pos (i : Nat) : 0 < (natDigits i).length :=
  List.length_pos.mpr (natDigits_ne_nil i)

theorem chunkKey_ne_key (key : String) (i : Nat) : chunkKey key i ≠ key := by
  intro h
  have hl := congrArg String.length h
  rw [chunkKey_length] at hl
  have := natDigits_length_pos i
  omega

theorem chunksKey_ne_key (key : String) : chunksKey key ≠ key := by
  intro h
  have hl := congrArg String.length h
  rw [chunksKey, String.length_append] at hl
  have : ("_chunks" : String).length = 7 := rfl
  omega

theorem chunkKey_ne_chunksKey (key : String) (i : Nat) : chunkKey key i ≠ chunksKey key := by
  intro h
  have hl := congrArg String.length h
  rw [chunkKey_length, chunksKey, String.length_append] at hl
  have h7 : ("_chunks" : String).length = 7 := rfl
  have := natDigits_length_pos i
  omega

theorem chunkKey_injective (key : String) {i j : Nat} (h : chunkKey key i = chunkKey key j) :
    i = j := by
  have hd := congrArg String.data h
  rw [chunkKey_data, chunkKey_data] at hd
  have h1 := List.append_cancel_left hd
  have h2 := List.append_cancel_left h1
  exact natDigits_injective h2

/-! ### Behaviour of the chunk-writing, cleanup and reading loops -/

theorem writeChunks_succ (key : String) (s : List Char) (cs : Nat) (st : Store) (n : Nat) :
    writeChunks key s cs st (n + 1) =
      setItem (writeChunks key s cs st n) (chunkKey key n)
        (jsSubstring s (n * cs) (n * cs + cs)) := by
  rw [writeChunks, List.range_succ, List.foldl_append]
  rfl

theorem getItem_writeChunks_other (key : String) (s : List Char) (cs : Nat) (st : Store)
    (chunks : Nat) (k' : String) (h : ∀ i, i < chunks → k' ≠ chunkKey key i) :
    getItem (writeChunks key s cs st chunks) k' = getItem st k' := by
  induction chunks with
  | zero => rfl
  | succ n ih =>
    rw [writeChunks_succ, getItem_setItem_ne _ _ _ _ (h n (Nat.lt_succ_self n))]
    exact ih (fun i hi => h i (Nat.lt_succ_of_lt hi))

theorem getItem_writeChunks_lt (key : String) (s : List Char) (cs : Nat) (st : Store)
    {chunks i : Nat} (h : i < chunks) :
    getItem (writeChunks key s cs st chunks) (chunkKey key i) =
      some (jsSubstring s (i * cs) (i * cs + cs)) := by
  induction chunks with
  | zero => omega
  | succ n ih =>
    rw [writeChunks_succ]
    by_cases hi : i = n
    · subst hi
      exact getItem_setItem_self _ _ _
    · rw [getItem_setItem_ne _ _ _ _ (fun hc => hi (chunkKey_injective key hc))]
      exact ih (by omega)

theorem getItem_cleanupChunksAux_other (key : String) :
    ∀ fuel i st (k' : String), (∀ j, i ≤ j → j < i + fuel → k' ≠ chunkKey key j) →
      getItem (cleanupChunksAux key st i fuel) k' = getItem st k' := by
  intro fuel
  induction fuel with
  | zero => intro i st k' _; rfl
  | succ f ih =>
    intro i st k' h
    rw [cleanupChunksAux]
    cases hc : getItem st (chunkKey key i) with
    | none => rfl
    | some c =>
      dsimp only
      by_cases he : c.isEmpty
      · rw [if_pos he]
      · rw [if_neg he]
        rw [ih (i + 1) _ k' (fun j h1 h2 => h j (by omega) (by omega))]
        exact getItem_removeItem_ne _ _ _ (h i (Nat.le_refl i) (by omega))

theorem cleanupChunksAux_removes (key : String) (n : Nat) :
    ∀ fuel i st, n ≤ i + fuel →
      (∀ j, i ≤ j → j < n →
        ∃ c, getItem st (chunkKey key j) = some c ∧ c.isEmpty = false) →
      (∀ j, j < i ∨ n ≤ j → getItem st (chunkKey key j) = none) →
      ∀ j, getItem (cleanupChunksAux key st i fuel) (chunkKey key j) = none := by
  intro fuel
  induction fuel with
  | zero =>
    intro i st hle _ hnone j
    exact hnone j (by omega)
  | succ f ih =>
    intro i st hle hpresent hnone j
    rw [cleanupChunksAux]
    by_cases hi : i < n
    · obtain ⟨c, hc, hce⟩ := hpresent i (Nat.le_refl i) hi
      rw [hc]
      simp only [hce, if_neg (by simp : ¬(false = true))]
      apply ih (i + 1) _ (by omega)
      · intro j' h1 h2
        obtain ⟨c', hc', hce'⟩ := hpresent j' (by omega) h2
        refine ⟨c', ?_, hce'⟩
        rw [getItem_removeItem_ne _ _ _ (fun hk => by
          have := chunkKey_injective key hk
          omega)]
        exact hc'
      · intro j' hj'
        by_cases hji : j' = i
        · subst hji
          exact getItem_removeItem_self _ _
        · rw [getItem_removeItem_ne _ _ _ (fun hk => hji (chunkKey_injective key hk))]
          exact hnone j' (by omega)
    · have : getItem st (chunkKey key i) = none := hnone i (by omega)
      rw [this]
      exact hnone j (by omega)

theorem readChunks_succ (st : Store) (key : String) (n : Nat) :
    readChunks st key (n + 1) =
      match readChunks st key n with
      | none => none
      | some a =>
        match getItem st (chunkKey key n) with
        | some c => if c.isEmpty then none else some (a ++ c)
        | none => none := by
  rw [readChunks, List.range_succ, List.foldl_append]
  rfl

theorem readChunks_some_all (st : Store) (key : String) :
    ∀ n r, readChunks st key n = some r →
      ∀ i, i < n → ∃ c, getItem st (chunkKey key i) = some c ∧ c.isEmpty = false := by
  intro n
  induction n with
  | zero => intro r _ i hi; omega
  | succ m ih =>
    intro r h i hi
    rw [readChunks_succ] at h
    cases hm : readChunks st key m with
    | none => rw [hm] at h; exact absurd h (by simp)
    | some a =>
      rw [hm] at h
      dsimp only at h
      by_cases him : i < m
      · exact ih a hm i him
      · have hieq : i = m := by omega
        subst hieq
        cases hc : getItem st (chunkKey key i) with
        | none => rw [hc] at h; exact absurd h (by simp)
        | some c =>
          rw [hc] at h
          dsimp only at h
          by_cases hce : c.isEmpty
          · rw [if_pos hce] at h; exact absurd h (by simp)
          · exact ⟨c, rfl, by simpa using hce⟩

theorem readChunks_missing (st : Store) (key : String) {n i : Nat} (hi : i < n)
    (h : getItem st (chunkKey key i) = none ∨ getItem st (chunkKey key i) = some []) :
    readChunks st key n = none := by
  cases hr : readChunks st key n with
  | none => rfl
  | some r =>
    obtain ⟨c, hc, hce⟩ := readChunks_some_all st key n r hr i hi
    rcases h with h | h
    · rw [h] at hc; exact absurd hc (by simp)
    · rw [h] at hc
      cases hc
      simp at hce

theorem jsSubstring_zero (s : List Char) (c : Nat) : jsSubstring s 0 c = s.take c := by
  simp [jsSubstring]

theorem jsSubstring_append (s : List Char) {a b c : Nat} (hab : a ≤ b) (hbc : b ≤ c) :
    jsSubstring s a b ++ jsSubstring s b c = jsSubstring s a c := by
  unfold jsSubstring
  by_cases hb : b ≤ (s.take c).length
  · have htb : (s.take c).take b = s.take b := by
      rw [List.take_take, min_eq_left hbc]
    calc (s.take b).drop a ++ (s.take c).drop b
        = ((s.take c).take b).drop a ++ (s.take c).drop b := by rw [htb]
      _ = (((s.take c).take b) ++ (s.take c).drop b).drop a := by
          rw [List.drop_append_of_le_length]
          rw [List.length_take]
          omega
      _ = (s.take c).drop a := by rw [List.take_append_drop]
  · push_neg at hb
    have hlen : (s.take c).length = min c s.length := List.length_take c s
    have hsl : s.length < b := by omega
    have h1 : s.take b = s := List.take_of_length_le (by omega)
    have h2 : s.take c = s := List.take_of_length_le (by omega)
    rw [h1, h2]
    have h3 : s.drop b = [] := List.drop_eq_nil_of_le (by omega)
    rw [h3, List.append_nil]

theorem readChunks_eq (st : Store) (key : String) (n : Nat) (f : Nat → List Char)
    (h : ∀ i, i < n → getItem st (chunkKey key i) = some (f i) ∧ (f i).isEmpty = false) :
    readChunks st key n = some ((List.range n).foldl (fun a i => a ++ f i) []) := by
  induction n with
  | zero => rfl
  | succ m ih =>
    rw [readChunks_succ, ih (fun i hi => h i (Nat.lt_succ_of_lt hi))]
    dsimp only
    rw [(h m (Nat.lt_succ_self m)).1]
    dsimp only
    rw [if_neg (by simp [(h m (Nat.lt_succ_self m)).2])]
    rw [List.range_succ, List.foldl_append]
    rfl

theorem getItem_save_direct_main (st : Store) (key : String) (s : List Char)
    (hlen : s.length < 2000000) :
    getItem (saveToLocalStorage st key s) key = some s := by
  rw [saveToLocalStorage, if_pos hlen]
  simp only
  have hclean : getItem (cleanupChunksAux key (setItem st key s) 0 20) key
      = getItem (setItem st key s) key :=
    getItem_cleanupChunksAux_other key 20 0 _ key
      (fun j _ _ hk => chunkKey_ne_key key j hk.symm)
  cases hm : getItem (cleanupChunksAux key (setItem st key s) 0 20) (chunksKey key) with
  | none =>
    rw [hclean]
    exact getItem_setItem_self st key s
  | some c =>
    dsimp only
    by_cases he : c.isEmpty
    · rw [if_pos he, hclean]
      exact getItem_setItem_self st key s
    · rw [if_neg he]
      rw [getItem_removeItem_ne _ _ _ (fun hk => chunksKey_ne_key key hk.symm)]
      rw [hclean]
      exact getItem_setItem_self st key s

theorem loadRaw_direct_save (st : Store) (key : String) (s : List Char)
    (hlen : s.length < 2000000) (hpre : chunkedMark.isPrefixOf s = false) :
    loadRaw (saveToLocalStorage st key s) key = some s := by
  rw [loadRaw, getItem_save_direct_main st key s hlen]
  dsimp only
  rw [if_neg (by simp [hpre])]

/-! ### JSON values and JSON.stringify -/

/-- A serializable JavaScript value (the possible results of
`JSON.parse(JSON.stringify(data))` in saveToLocalStorage): exactly the JSON
value tree.  Strings are character lists, numbers are modelled by the
integers that occur in this application. -/
inductive Json where
  | null : Json
  | bool (b : Bool) : Json
  | num (n : Int) : Json
  | str (s : List Char) : Json
  | arr (elems : List Json) : Json
  | obj (fields : List (List Char × Json)) : Json

/-- JSON string escaping of one character, as performed by JSON.stringify. -/
def escapeChar (c : Char) : List Char :=
  if c = '"' then ['\\', '"']
  else if c = '\\' then ['\\', '\\']
  else if c = Char.ofNat 8 then ['\\', 'b']
  else if c = '\t' then ['\\', 't']
  else if c = '\n' then ['\\', 'n']
  else if c = Char.ofNat 12 then ['\\', 'f']
  else if c = '\r' then ['\\', 'r']
  else if c.toNat < 32 then
    ['\\', 'u', '0', '0', Nat.digitChar (c.toNat / 16), Nat.digitChar (c.toNat % 16)]
  else [c]

def escapeStr : List Char → List Char
  | [] => []
  | c :: cs => escapeChar c ++ escapeStr cs

/-- Decimal serialization of an integer, as JSON.stringify renders the
integral numbers used by this application. -/
def intToStr (n : Int) : List Char :=
  if n < 0 then '-' :: natDigits n.natAbs else natDigits n.toNat

mutual

/-- Embedding of `JSON.stringify` on JSON value trees. -/
def jsonStringify : Json → List Char
  | .null => "null".data
  | .bool true => "true".data
  | .bool false => "false".data
  | .num n => intToStr n
  | .str s => '"' :: escapeStr s ++ ['"']
  | .arr elems => '[' :: jsonStringifyArr elems ++ [']']
  | .obj fields => Char.ofNat 123 :: jsonStringifyObj fields ++ [Char.ofNat 125]

/-- Comma-separated serialization of array elements. -/
def jsonStringifyArr : List Json → List Char
  | [] => []
  | [v] => jsonStringify v
  | v :: w :: rest => jsonStringify v ++ ',' :: jsonStringifyArr (w :: rest)

/-- Comma-separated serialization of object fields. -/
def jsonStringifyObj : List (List Char × Json) → List Char
  | [] => []
  | [(k, v)] => '"' :: escapeStr k ++ '"' :: ':' :: jsonStringify v
  | (k, v) :: f :: rest =>
    ('"' :: escapeStr k ++ '"' :: ':' :: jsonStringify v) ++ ',' :: jsonStringifyObj (f :: rest)

end

theorem digitChar_ne_underscore {d : Nat} (h : d < 10) : Nat.digitChar d ≠ '_' := by
  interval_cases d <;> decide

theorem jsonStringify_head (v : Json) :
    ∃ c rest, jsonStringify v = c :: rest ∧ c ≠ '_' := by
  cases v with
  | null => exact ⟨'n', ['u', 'l', 'l'], rfl, by decide⟩
  | bool b => cases b
              · exact ⟨'f', ['a', 'l', 's', 'e'], rfl, by decide⟩
              · exact ⟨'t', ['r', 'u', 'e'], rfl, by decide⟩
  | num n =>
    rw [jsonStringify, intToStr]
    by_cases hn : n < 0
    · exact ⟨'-', natDigits n.natAbs, by rw [if_pos hn], by decide⟩
    · obtain ⟨d, rest, hd, heq⟩ := natDigits_head_digit n.toNat
      exact ⟨Nat.digitChar d, rest, by rw [if_neg hn, heq], digitChar_ne_underscore hd⟩
  | str s => exact ⟨'"', escapeStr s ++ ['"'], by rw [jsonStringify]; rfl, by decide⟩
  | arr elems =>
    exact ⟨'[', jsonStringifyArr elems ++ [']'], by rw [jsonStringify]; rfl, by decide⟩
  | obj fields =>
    exact ⟨Char.ofNat 123, jsonStringifyObj fields ++ [Char.ofNat 125],
      by rw [jsonStringify]; rfl, by decide⟩

theorem jsonStringify_not_chunked (v : Json) :
    chunkedMark.isPrefixOf (jsonStringify v) = false := by
  obtain ⟨c, rest, heq, hne⟩ := jsonStringify_head v
  have hmark : chunkedMark = '_' :: "_CHUNKED__".data := rfl
  rw [heq, hmark]
  simp [List.isPrefixOf]
  intro hc
  exact absurd hc.symm hne

theorem isEmpty_false_of_length_pos {l : List Char} (h : 0 < l.length) : l.isEmpty = false := by
  cases l with
  | nil => simp at h
  | cons a as => rfl

/-- Claim C10: every value accepted by save serializes to a JSON string, and a
JSON string never begins with the sentinel marker `__CHUNKED__`; consequently
a directly saved payload is read back through the non-chunked branch of load
and is never misinterpreted as chunked. -/
theorem c10_sentinel_detection_unambiguous :
    (∀ v : Json, chunkedMark.isPrefixOf (jsonStringify v) = false)
    ∧ (∀ (st : Store) (key : String) (v : Json), (jsonStringify v).length < 2000000 →
        loadRaw (saveToLocalStorage st key (jsonStringify v)) key = some (jsonStringify v)) :=
  ⟨jsonStringify_not_chunked,
   fun st key v hlen => loadRaw_direct_save st key _ hlen (jsonStringify_not_chunked v)⟩

/-- Witness for C10 at the concrete payload `null` and key "k". -/
theorem c10_witness :
    chunkedMark.isPrefixOf (jsonStringify Json.null) = false
    ∧ loadRaw (saveToLocalStorage emptyStore "k" (jsonStringify Json.null)) "k"
        = some (jsonStringify Json.null) :=
  ⟨c10_sentinel_detection_unambiguous.1 Json.null,
   c10_sentinel_detection_unambiguous.2 emptyStore "k" Json.null
     (by rw [jsonStringify]; decide)⟩

/-- Claim C6: a payload whose serialized form is 500 characters long is saved
through the direct branch and loaded back equal to the original payload (the
caller's `JSON.parse` is abstracted as `parse`; recovering the exact
serialized string makes the deserialized value deep-equal to the payload). -/
theorem c6_small_payload_roundtrip (parse : List Char → Option Json) (st : Store)
    (p : Json) (deflt : Json) (hlen : (jsonStringify p).length = 500)
    (hparse : parse (jsonStringify p) = some p) :
    loadFromLocalStorage parse (saveToLocalStorage st "k" (jsonStringify p)) "k" deflt
      = p := by
  rw [loadFromLocalStorage,
    loadRaw_direct_save st "k" _ (by omega) (jsonStringify_not_chunked p)]
  dsimp only
  rw [hparse]

theorem escapeChar_a : escapeChar 'a' = ['a'] := by decide

theorem escapeStr_replicate_a (n : Nat) :
    escapeStr (List.replicate n 'a') = List.replicate n 'a' := by
  induction n with
  | zero => rfl
  | succ m ih =>
    rw [List.replicate_succ, escapeStr, escapeChar_a, ih]
    rfl

/-- The concrete 500-character payload used to witness C6: a JSON string of
498 letters, serialized as a quote, 498 characters and a closing quote. -/
def c6Payload : Json := Json.str (List.replicate 498 'a')

theorem c6Payload_length : (jsonStringify c6Payload).length = 500 := by
  rw [c6Payload, jsonStringify, escapeStr_replicate_a]
  rw [List.length_append, List.length_cons, List.length_replicate]
  norm_num

/-- Witness for C6 at the concrete payload `c6Payload`. -/
theorem c6_witness :
    (jsonStringify c6Payload).length = 500
    ∧ loadFromLocalStorage (fun _ => some c6Payload)
        (saveToLocalStorage emptyStore "k" (jsonStringify c6Payload)) "k" Json.null
        = c6Payload :=
  ⟨c6Payload_length,
   c6_small_payload_roundtrip (fun _ => some c6Payload) emptyStore c6Payload Json.null
     c6Payload_length rfl⟩

/-- Claim C7: saving a payload whose serialized form is 3,500,000 characters
long writes exactly 4 chunk entries (1,000,000 characters each except the
last, which has 500,000), a chunk-count entry equal to 4 and a sentinel under
the main key carrying the count, touches no other key, and a subsequent load
reassembles the serialized string byte-for-byte in chunk-index order. -/
theorem c7_chunked_save_layout_and_reload (st : Store) (s : List Char)
    (hlen : s.length = 3500000) :
    (∀ i, i < 4 → getItem (saveToLocalStorage st "k" s) (chunkKey "k" i)
        = some (jsSubstring s (i * 1000000) (i * 1000000 + 1000000)))
    ∧ (∀ i, i < 3 → (jsSubstring s (i * 1000000) (i * 1000000 + 1000000)).length = 1000000)
    ∧ (jsSubstring s (3 * 1000000) (3 * 1000000 + 1000000)).length = 500000
    ∧ getItem (saveToLocalStorage st "k" s) (chunksKey "k") = some (natDigits 4)
    ∧ getItem (saveToLocalStorage st "k" s) "k" = some (chunkedSentinel 4)
    ∧ (∀ k', k' ≠ "k" → k' ≠ chunksKey "k" → (∀ i, i < 4 → k' ≠ chunkKey "k" i) →
        getItem (saveToLocalStorage st "k" s) k' = getItem st k')
    ∧ loadRaw (saveToLocalStorage st "k" s) "k" = some s := by
  have hsave : saveToLocalStorage st "k" s
      = setItem (writeChunks "k" s 1000000 (setItem st (chunksKey "k") (natDigits 4)) 4)
          "k" (chunkedSentinel 4) := by
    rw [saveToLocalStorage, if_neg (by omega)]
    simp only
    rw [hlen]
  have hchunk : ∀ i, i < 4 → getItem (saveToLocalStorage st "k" s) (chunkKey "k" i)
      = some (jsSubstring s (i * 1000000) (i * 1000000 + 1000000)) := by
    intro i hi
    rw [hsave, getItem_setItem_ne _ _ _ _ (chunkKey_ne_key "k" i)]
    exact getItem_writeChunks_lt "k" s 1000000 _ hi
  have hlen3 : ∀ i, i < 3 → (jsSubstring s (i * 1000000) (i * 1000000 + 1000000)).length
      = 1000000 := by
    intro i hi
    rw [jsSubstring, List.length_drop, List.length_take, hlen]
    omega
  have hlast : (jsSubstring s (3 * 1000000) (3 * 1000000 + 1000000)).length = 500000 := by
    rw [jsSubstring, List.length_drop, List.length_take, hlen]
    omega
  have hcount : getItem (saveToLocalStorage st "k" s) (chunksKey "k") = some (natDigits 4) := by
    rw [hsave, getItem_setItem_ne _ _ _ _ (chunksKey_ne_key "k"),
      getItem_writeChunks_other _ _ _ _ _ _ (fun i _ hk => chunkKey_ne_chunksKey "k" i hk.symm)]
    exact getItem_setItem_self _ _ _
  have hmain : getItem (saveToLocalStorage st "k" s) "k" = some (chunkedSentinel 4) := by
    rw [hsave]
    exact getItem_setItem_self _ _ _
  have hlenpos : ∀ i, i < 4 →
      (jsSubstring s (i * 1000000) (i * 1000000 + 1000000)).isEmpty = false := by
    intro i hi
    apply isEmpty_false_of_length_pos
    rw [jsSubstring, List.length_drop, List.length_take, hlen]
    omega
  refine ⟨hchunk, hlen3, hlast, hcount, hmain, ?_, ?_⟩
  · intro k' h1 h2 h3
    rw [hsave, getItem_setItem_ne _ _ _ _ h1,
      getItem_writeChunks_other _ _ _ _ _ _ h3, getItem_setItem_ne _ _ _ _ h2]
  · rw [loadRaw, hmain]
    dsimp only
    rw [if_pos (by decide : chunkedMark.isPrefixOf (chunkedSentinel 4) = true)]
    rw [hcount]
    dsimp only
    rw [if_neg (by decide : ¬((natDigits 4).isEmpty = true))]
    rw [jsParseInt_natDigits 4]
    dsimp only
    rw [if_neg (by norm_num : ¬(((4 : Nat) : Int) ≤ 0))]
    have h4 : ((4 : Nat) : Int).toNat = 4 := rfl
    rw [h4]
    rw [readChunks_eq _ _ 4 (fun i => jsSubstring s (i * 1000000) (i * 1000000 + 1000000))
      (fun i hi => ⟨hchunk i hi, hlenpos i hi⟩)]
    have hr : List.range 4 = [0, 1, 2, 3] := rfl
    rw [hr]
    simp only [List.foldl_cons, List.foldl_nil]
    norm_num
    have e3 : jsSubstring s 2000000 3000000 ++ jsSubstring s 3000000 4000000
        = jsSubstring s 2000000 4000000 := jsSubstring_append s (by omega) (by omega)
    have e2 : jsSubstring s 1000000 2000000 ++ jsSubstring s 2000000 4000000
        = jsSubstring s 1000000 4000000 := jsSubstring_append s (by omega) (by omega)
    have e1 : jsSubstring s 0 1000000 ++ jsSubstring s 1000000 4000000
        = jsSubstring s 0 4000000 := jsSubstring_append s (by omega) (by omega)
    rw [e3, e2, e1, jsSubstring_zero]
    rw [List.take_of_length_le (by omega)]

/-- Claim C8 (amended): after a chunked save of at most 20 chunks under a key,
a subsequent direct (small) save under the same key removes every chunk entry
and the chunk-count metadata; the bound comes from the cleanup loop, which
scans only chunk indexes 0 through 19 and stops at the first gap. -/
theorem c8_direct_save_cleanup_within_twenty (key : String) (big small : List Char)
    (hbig : ¬ big.length < 2000000)
    (hn : (big.length + 1000000 - 1) / 1000000 ≤ 20)
    (hsmall : small.length < 2000000) :
    (∀ i, getItem (saveToLocalStorage (saveToLocalStorage emptyStore key big) key small)
        (chunkKey key i) = none)
    ∧ getItem (saveToLocalStorage (saveToLocalStorage emptyStore key big) key small)
        (chunksKey key) = none := by
  set n := (big.length + 1000000 - 1) / 1000000 with hndef
  have hsave1 : saveToLocalStorage emptyStore key big
      = setItem (writeChunks key big 1000000
          (setItem emptyStore (chunksKey key) (natDigits n)) n) key (chunkedSentinel n) := by
    rw [saveToLocalStorage, if_neg hbig]
  have hdm := Nat.div_add_mod (big.length + 1000000 - 1) 1000000
  have hmod : (big.length + 1000000 - 1) % 1000000 < 1000000 :=
    Nat.mod_lt _ (by norm_num)
  have hsl : ∀ i, i < n → i * 1000000 < big.length := by
    intro i hi
    rw [hndef] at hi
    omega
  have hA : ∀ i, i < n → getItem (saveToLocalStorage emptyStore key big) (chunkKey key i)
      = some (jsSubstring big (i * 1000000) (i * 1000000 + 1000000)) := by
    intro i hi
    rw [hsave1, getItem_setItem_ne _ _ _ _ (chunkKey_ne_key key i)]
    exact getItem_writeChunks_lt key big 1000000 _ hi
  have hAne : ∀ i, i < n →
      (jsSubstring big (i * 1000000) (i * 1000000 + 1000000)).isEmpty = false := by
    intro i hi
    apply isEmpty_false_of_length_pos
    rw [jsSubstring, List.length_drop, List.length_take]
    have := hsl i hi
    omega
  have hB : ∀ i, n ≤ i → getItem (saveToLocalStorage emptyStore key big) (chunkKey key i)
      = none := by
    intro i hi
    rw [hsave1, getItem_setItem_ne _ _ _ _ (chunkKey_ne_key key i),
      getItem_writeChunks_other _ _ _ _ _ _
        (fun j hj hk => by have := chunkKey_injective key hk; omega),
      getItem_setItem_ne _ _ _ _ (chunkKey_ne_chunksKey key i)]
    rfl
  have hC : getItem (saveToLocalStorage emptyStore key big) (chunksKey key)
      = some (natDigits n) := by
    rw [hsave1, getItem_setItem_ne _ _ _ _ (chunksKey_ne_key key),
      getItem_writeChunks_other _ _ _ _ _ _
        (fun j _ hk => chunkKey_ne_chunksKey key j hk.symm)]
    exact getItem_setItem_self _ _ _
  have hchunkpost : ∀ j,
      getItem (cleanupChunksAux key
        (setItem (saveToLocalStorage emptyStore key big) key small) 0 20)
        (chunkKey key j) = none := by
    apply cleanupChunksAux_removes key n 20 0 _ (by omega)
    · intro j _ hj
      refine ⟨jsSubstring big (j * 1000000) (j * 1000000 + 1000000), ?_, hAne j hj⟩
      rw [getItem_setItem_ne _ _ _ _ (chunkKey_ne_key key j)]
      exact hA j hj
    · intro j hj
      rcases hj with hj | hj
      · omega
      · rw [getItem_setItem_ne _ _ _ _ (chunkKey_ne_key key j)]
        exact hB j hj
  have hcount2 : getItem (cleanupChunksAux key
      (setItem (saveToLocalStorage emptyStore key big) key small) 0 20)
      (chunksKey key) = some (natDigits n) := by
    rw [getItem_cleanupChunksAux_other key 20 0 _ _
      (fun j _ _ hk => chunkKey_ne_chunksKey key j hk.symm)]
    rw [getItem_setItem_ne _ _ _ _ (chunksKey_ne_key key)]
    exact hC
  have hfin : saveToLocalStorage (saveToLocalStorage emptyStore key big) key small
      = removeItem (cleanupChunksAux key
          (setItem (saveToLocalStorage emptyStore key big) key small) 0 20)
          (chunksKey key) := by
    rw [saveToLocalStorage, if_pos hsmall]
    simp only
    rw [hcount2]
    dsimp only
    rw [if_neg (by simp [natDigits_ne_nil n])]
  constructor
  · intro i
    rw [hfin, getItem_removeItem_ne _ _ _ (chunkKey_ne_chunksKey key i)]
    exact hchunkpost i
  · rw [hfin]
    exact getItem_removeItem_self _ _

/-- Witness for the amended C8: a 2,000,000-character payload (2 chunks)
followed by a 2-character payload leaves chunks 0 and 1 and the chunk count
all removed. -/
theorem c8_amended_witness :
    getItem (saveToLocalStorage (saveToLocalStorage emptyStore "k"
        (List.replicate 2000000 'a')) "k" ['h', 'i']) (chunkKey "k" 0) = none
    ∧ getItem (saveToLocalStorage (saveToLocalStorage emptyStore "k"
        (List.replicate 2000000 'a')) "k" ['h', 'i']) (chunkKey "k" 1) = none
    ∧ getItem (saveToLocalStorage (saveToLocalStorage emptyStore "k"
        (List.replicate 2000000 'a')) "k" ['h', 'i']) (chunksKey "k") = none := by
  have h := c8_direct_save_cleanup_within_twenty "k" (List.replicate 2000000 'a') ['h', 'i']
    (by rw [List.length_replicate]; omega)
    (by rw [List.length_replicate]; norm_num)
    (by norm_num)
  exact ⟨h.1 0, h.1 1, h.2⟩

/-- Counterexample to C8 as stated: a 21,000,000-character payload produces 21
chunks, and the subsequent small save scans only chunk indexes 0 through 19,
so chunk 20 survives as an orphan (it is not removed). -/
theorem c8_counterexample :
    getItem (saveToLocalStorage (saveToLocalStorage emptyStore "k"
        (List.replicate 21000000 'a')) "k" ['h', 'i']) (chunkKey "k" 20)
      = some (List.replicate 1000000 'a') := by
  have hlen : (List.replicate 21000000 'a').length = 21000000 :=
    List.length_replicate 21000000 'a'
  have hsave1 : saveToLocalStorage emptyStore "k" (List.replicate 21000000 'a')
      = setItem (writeChunks "k" (List.replicate 21000000 'a') 1000000
          (setItem emptyStore (chunksKey "k") (natDigits 21)) 21) "k"
          (chunkedSentinel 21) := by
    rw [saveToLocalStorage, if_neg (by rw [hlen]; omega)]
    simp only
    rw [hlen]
  have hch20 : getItem (saveToLocalStorage emptyStore "k" (List.replicate 21000000 'a'))
      (chunkKey "k" 20)
      = some (jsSubstring (List.replicate 21000000 'a') 20000000 21000000) := by
    rw [hsave1, getItem_setItem_ne _ _ _ _ (chunkKey_ne_key "k" 20)]
    have h := getItem_writeChunks_lt "k" (List.replicate 21000000 'a') 1000000
      (setItem emptyStore (chunksKey "k") (natDigits 21)) (by norm_num : (20 : Nat) < 21)
    rw [h]
  have hslice : jsSubstring (List.replicate 21000000 'a') 20000000 21000000
      = List.replicate 1000000 'a' := by
    rw [jsSubstring, List.take_of_length_le (by rw [hlen]), List.drop_replicate]
  have hC : getItem (saveToLocalStorage emptyStore "k" (List.replicate 21000000 'a'))
      (chunksKey "k") = some (natDigits 21) := by
    rw [hsave1, getItem_setItem_ne _ _ _ _ (chunksKey_ne_key "k"),
      getItem_writeChunks_other _ _ _ _ _ _
        (fun j _ hk => chunkKey_ne_chunksKey "k" j hk.symm)]
    exact getItem_setItem_self _ _ _
  have hcount2 : getItem (cleanupChunksAux "k"
      (setItem (saveToLocalStorage emptyStore "k" (List.replicate 21000000 'a')) "k"
        ['h', 'i']) 0 20) (chunksKey "k") = some (natDigits 21) := by
    rw [getItem_cleanupChunksAux_other "k" 20 0 _ _
      (fun j _ _ hk => chunkKey_ne_chunksKey "k" j hk.symm)]
    rw [getItem_setItem_ne _ _ _ _ (chunksKey_ne_key "k")]
    exact hC
  have hfin : saveToLocalStorage (saveToLocalStorage emptyStore "k"
      (List.replicate 21000000 'a')) "k" ['h', 'i']
      = removeItem (cleanupChunksAux "k"
          (setItem (saveToLocalStorage emptyStore "k" (List.replicate 21000000 'a')) "k"
            ['h', 'i']) 0 20) (chunksKey "k") := by
    rw [saveToLocalStorage, if_pos (by norm_num)]
    simp only
    rw [hcount2]
    dsimp only
    rw [if_neg (by simp [natDigits_ne_nil 21])]
  rw [hfin, getItem_removeItem_ne _ _ _ (chunkKey_ne_chunksKey "k" 20)]
  rw [getItem_cleanupChunksAux_other "k" 20 0 _ _
    (fun j _ hj hk => by have := chunkKey_injective "k" hk; omega)]
  rw [getItem_setItem_ne _ _ _ _ (chunkKey_ne_key "k" 20)]
  rw [hch20, hslice]

/-- Claim C9: when the entry under a key is the chunked sentinel and any
expected chunk in the recorded range is missing (or empty, which the source's
truthiness test also treats as missing), the load fails as a whole and
returns the caller-supplied default; it never returns a truncated result. -/
theorem c9_missing_chunk_returns_default {α : Type} (parse : List Char → Option α)
    (st : Store) (key : String) (deflt : α) (v cs : List Char) (n : Int) (i : Nat)
    (hv : getItem st key = some v)
    (hpre : chunkedMark.isPrefixOf v = true)
    (hcs : getItem st (chunksKey key) = some cs)
    (hcse : cs.isEmpty = false)
    (hn : jsParseInt cs = some n)
    (hpos : 0 < n)
    (hi : i < n.toNat)
    (hmiss : getItem st (chunkKey key i) = none ∨ getItem st (chunkKey key i) = some []) :
    loadFromLocalStorage parse st key deflt = deflt := by
  rw [loadFromLocalStorage, loadRaw, hv]
  dsimp only
  rw [if_pos hpre, hcs]
  dsimp only
  rw [if_neg (by simp [hcse]), hn]
  dsimp only
  rw [if_neg (by omega)]
  rw [readChunks_missing st key hi hmiss]

/-- Witness store for C9: sentinel and chunk count announce 4 chunks but
chunk 2 is missing. -/
def c9Store : Store :=
  setItem (setItem (setItem (setItem emptyStore "k" (chunkedSentinel 4))
    (chunksKey "k") (natDigits 4)) (chunkKey "k" 0) ['x']) (chunkKey "k" 1) ['y']

/-- Witness for C9 at the concrete store `c9Store`. -/
theorem c9_witness :
    loadFromLocalStorage (fun s => some s) c9Store "k" ['d'] = ['d'] :=
  c9_missing_chunk_returns_default (fun s => some s) c9Store "k" ['d']
    (chunkedSentinel 4) (natDigits 4) 4 2
    (by decide) (by decide) (by decide) (by decide)
    (jsParseInt_natDigits 4) (by norm_num) (by decide)
    (Or.inl (by decide))

/-- Witness for C7 at the concrete 3,500,000-character payload. -/
theorem c7_witness :
    getItem (saveToLocalStorage emptyStore "k" (List.replicate 3500000 'a')) (chunksKey "k")
      = some (natDigits 4)
    ∧ getItem (saveToLocalStorage emptyStore "k" (List.replicate 3500000 'a')) "k"
      = some (chunkedSentinel 4)
    ∧ loadRaw (saveToLocalStorage emptyStore "k" (List.replicate 3500000 'a')) "k"
      = some (List.replicate 3500000 'a') := by
  have h := c7_chunked_save_layout_and_reload emptyStore (List.replicate 3500000 'a')
    (List.length_replicate 3500000 'a')
  exact ⟨h.2.2.2.1, h.2.2.2.2.1, h.2.2.2.2.2.2⟩

/-! ### Part 2: the quiz data model, MemStorage and the sync route

The Quiz / InsertQuiz shapes follow shared/schema.ts: the quizzes table and
the zod insert schema derived from it (columns that are notNull without a
database default are required; columns with defaults or nullable columns are
optional).  Timestamps are modelled as Nat, JavaScript numbers used as
counters as Int.  An outer Option models an absent (undefined) field, an
inner Option a null value. -/

structure Question where
  question : String
  answerDescription : String
  options : List String
  correctAnswer : String
  questionImages : List String
  answerImages : List String
deriving DecidableEq

structure QuizAttempt where
  date : Nat
  score : Int
  totalQuestions : Int
  timeSpent : Int
deriving DecidableEq

/-- A stored quiz row (the Quiz type inferred from the quizzes table).
`isPublic` is an Option because MemStorage.createQuiz casts an insert without
`isPublic` straight to Quiz, leaving the field undefined. -/
structure Quiz where
  id : Nat
  uniqueId : String
  title : String
  description : String
  questions : List Question
  timer : Int
  category : String
  history : Option (List QuizAttempt)
  createdAt : Nat
  lastTaken : Option Nat
  password : Option String
  isPublic : Option Bool
  createdBy : Option Nat
  version : Int
deriving DecidableEq

/-- The zod-validated insert shape (insertQuizSchema): uniqueId, title,
description, questions, timer and category are required; the rest optional. -/
structure InsertQuiz where
  uniqueId : String
  title : String
  description : String
  questions : List Question
  timer : Int
  category : String
  history : Option (List QuizAttempt)
  createdAt : Option Nat
  lastTaken : Option (Option Nat)
  password : Option (Option String)
  isPublic : Option Bool
  createdBy : Option (Option Nat)
  version : Option Int
deriving DecidableEq

/-- An unvalidated incoming record from a sync request body, before zod
parsing: every schema-required content field may be missing. -/
structure RawQuiz where
  uniqueId : Option String
  title : Option String
  description : Option String
  questions : Option (List Question)
  timer : Option Int
  category : Option String
  history : Option (List QuizAttempt)
  createdAt : Option Nat
  lastTaken : Option (Option Nat)
  password : Option (Option String)
  isPublic : Option Bool
  createdBy : Option (Option Nat)
  version : Option Int
deriving DecidableEq

/-- The QuizCategoryEnum values of shared/schema.ts. -/
def quizCategoryEnum : List String :=
  ["General Knowledge", "Mathematics", "Science", "Reasoning", "Custom"]

/-- QuizCategorySchema: the enum, or any string of length 1 to 50. -/
def validCategory (c : String) : Bool :=
  quizCategoryEnum.contains c || (1 ≤ c.length && c.length ≤ 50)

/-- zod validation of one incoming record against insertQuizSchema: all
required fields must be present (and the category valid); `none` is a
ZodError on this record. -/
def parseInsertQuiz (r : RawQuiz) : Option InsertQuiz :=
  match r.uniqueId, r.title, r.description, r.questions, r.timer, r.category with
  | some uid, some t, some d, some qs, some tm, some cat =>
    if validCategory cat then
      some {
        uniqueId := uid, title := t, description := d, questions := qs, timer := tm,
        category := cat, history := r.history, createdAt := r.createdAt,
        lastTaken := r.lastTaken, password := r.password, isPublic := r.isPublic,
        createdBy := r.createdBy, version := r.version }
    else none
  | _, _, _, _, _, _ => none

/-- zod parse of the whole sync request body (syncQuizSchema): an array parse
fails as soon as any element fails, so the result is all-or-nothing. -/
def parseSyncBody : List RawQuiz → Option (List InsertQuiz)
  | [] => some []
  | r :: rs =>
    match parseInsertQuiz r, parseSyncBody rs with
    | some q, some qs => some (q :: qs)
    | _, _ => none

/-- The state of MemStorage: the quizCollection map (a JavaScript Map,
modelled as an insertion-ordered association list) and quizCurrentId. -/
structure MemState where
  quizzes : List (Nat × Quiz)
  quizCurrentId : Nat
deriving DecidableEq

/-- Map lookup, as JavaScript Map.get. -/
def mapGet : List (Nat × Quiz) → Nat → Option Quiz
  | [], _ => none
  | (k, v) :: rest, k' => if k = k' then some v else mapGet rest k'

/-- Map update, as JavaScript Map.set: replace in place when the key exists,
append otherwise. -/
def mapSet : List (Nat × Quiz) → Nat → Quiz → List (Nat × Quiz)
  | [], k, v => [(k, v)]
  | (k', v') :: rest, k, v =>
    if k' = k then (k, v) :: rest else (k', v') :: mapSet rest k v

/-- MemStorage.getQuizByUniqueId: the first quiz in insertion order whose
uniqueId matches. -/
def getQuizByUniqueId (st : MemState) (uid : String) : Option Quiz :=
  (st.quizzes.map Prod.snd).find? (fun q => q.uniqueId == uid)

/-- MemStorage.createQuiz.  `uuid` stands for the uuidv4() drawn when the
incoming uniqueId is falsy (absent ids are modelled as the empty string);
`now` stands for `new Date()`.  A present createdAt Date is always truthy,
hence kept. -/
def memCreateQuiz (uuid : String) (now : Nat) (st : MemState) (q : InsertQuiz) :
    Quiz × MemState :=
  let id := st.quizCurrentId
  let uid := if q.uniqueId = "" then uuid else q.uniqueId
  let version : Int := match q.version with | some v => if v = 0 then 1 else v | none => 1
  let password : Option String := match q.password with | some p => p | none => none
  let newQuiz : Quiz := {
    id := id
    uniqueId := uid
    title := q.title
    description := q.description
    questions := q.questions
    timer := q.timer
    category := q.category
    history := q.history
    createdAt := match q.createdAt with | some d => d | none => now
    lastTaken := match q.lastTaken with | some x => x | none => none
    password := password
    isPublic := q.isPublic
    createdBy := match q.createdBy with | some x => x | none => none
    version := version }
  (newQuiz, ⟨mapSet st.quizzes id newQuiz, st.quizCurrentId + 1⟩)

/-- MemStorage.updateQuiz: spread the update over the existing quiz, then
overwrite the version with `existing.version ? existing.version + 1 : 1`.
In the sync path the update is a full InsertQuiz, so every required field
overrides and every absent optional field keeps the existing value. -/
def memUpdateQuiz (st : MemState) (id : Nat) (u : InsertQuiz) : Option (Quiz × MemState) :=
  match mapGet st.quizzes id with
  | none => none
  | some e =>
    let updated : Quiz := {
      id := e.id
      uniqueId := u.uniqueId
      title := u.title
      description := u.description
      questions := u.questions
      timer := u.timer
      category := u.category
      history := match u.history with | some h => some h | none => e.history
      createdAt := match u.createdAt with | some d => d | none => e.createdAt
      lastTaken := match u.lastTaken with | some x => x | none => e.lastTaken
      password := match u.password with | some x => x | none => e.password
      isPublic := match u.isPublic with | some b => some b | none => e.isPublic
      createdBy := match u.createdBy with | some x => x | none => e.createdBy
      version := if e.version ≠ 0 then e.version + 1 else 1 }
    some (updated, ⟨mapSet st.quizzes id updated, st.quizCurrentId⟩)

/-- Truthiness of an optional version number, as JavaScript sees it. -/
def versionTruthy : Option Int → Bool
  | none => false
  | some v => v != 0

/-- The update condition of MemStorage.syncQuizzes:
`!existing.version || !incoming.version || incoming.version >= existing.version`. -/
def shouldUpdate (ev : Int) (rv : Option Int) : Bool :=
  (ev == 0) || !(versionTruthy rv) || decide (ev ≤ rv.getD 0)

/-- MemStorage.syncQuizzes: reconcile each incoming record in order against
the record with the same uniqueId, last write wins.  `uuidGen`/`seed` thread
the uuid source for createQuiz, `now` the clock. -/
def memSyncQuizzes (uuidGen : Nat → String) (now : Nat) :
    MemState → Nat → List InsertQuiz → List Quiz × MemState
  | st, _, [] => ([], st)
  | st, seed, r :: rest =>
    match getQuizByUniqueId st r.uniqueId with
    | some e =>
      if shouldUpdate e.version r.version then
        match memUpdateQuiz st e.id r with
        | some us =>
          let res := memSyncQuizzes uuidGen now us.2 seed rest
          (us.1 :: res.1, res.2)
        | none =>
          memSyncQuizzes uuidGen now st seed rest
      else
        let res := memSyncQuizzes uuidGen now st seed rest
        (e :: res.1, res.2)
    | none =>
      let created := memCreateQuiz (uuidGen seed) now st r
      let res := memSyncQuizzes uuidGen now created.2 (seed + 1) rest
      (created.1 :: res.1, res.2)

/-- MemStorage.getPublicQuizzes: the quizzes with isPublic strictly true. -/
def memGetPublicQuizzes (st : MemState) : List Quiz :=
  (st.quizzes.map Prod.snd).filter (fun q => q.isPublic == some true)

/-- The POST /api/quizzes/sync handler of src/server/routes.ts: zod-parse the
whole body with syncQuizSchema; on a ZodError respond 400 "Invalid sync data"
without touching storage; otherwise run syncQuizzes and respond with the
public quizzes of the resulting state. -/
def postSyncQuizzes (uuidGen : Nat → String) (now : Nat) (st : MemState) (seed : Nat)
    (rs : List RawQuiz) : Except String (List Quiz) × MemState :=
  match parseSyncBody rs with
  | none => (Except.error "Invalid sync data", st)
  | some qs =>
    let res := memSyncQuizzes uuidGen now st seed qs
    (Except.ok (memGetPublicQuizzes res.2), res.2)

/-- Well-formedness of a MemStorage state: map keys are distinct, every row's
id field equals its key, and all keys are below quizCurrentId.  Every state
reachable through the storage interface satisfies this. -/
def MemWF (st : MemState) : Prop :=
  st.quizzes.Pairwise (fun a b => a.1 ≠ b.1)
  ∧ ∀ p ∈ st.quizzes, p.2.id = p.1 ∧ p.1 < st.quizCurrentId

instance (st : MemState) : Decidable (MemWF st) := by
  unfold MemWF
  exact instDecidableAnd

/-! ### The client-side quiz type and the local-edit path of Quiz.tsx -/

/-- The client Quiz type of Quiz.tsx: `id` is a uuid string, `version` is
optional. -/
structure ClientQuiz where
  id : String
  title : String
  description : String
  questions : List Question
  timer : Int
  lastTaken : Option Nat
  password : Option String
  category : String
  history : Option (List QuizAttempt)
  createdAt : Nat
  isPublic : Bool
  version : Option Int
deriving DecidableEq

/-- JavaScript String.prototype.trim on the model strings. -/
def jsTrim (s : String) : String :=
  String.mk (((s.data.dropWhile jsWhitespace).reverse.dropWhile jsWhitespace).reverse)

/-- The per-question validity filter of handleSaveQuiz / handleUpdateQuiz:
nonblank question text, all options nonblank, nonblank correct answer. -/
def validQuestion (q : Question) : Bool :=
  jsTrim q.question != "" && q.options.all (fun o => jsTrim o != "")
    && jsTrim q.correctAnswer != ""

/-- The edit form loaded by handlePasswordSubmit once the password check
passes: the newQuiz literal of Quiz.tsx lines 1768-1780.  A present createdAt
Date is always truthy and therefore kept. -/
def clientLoadQuizForEdit (q : ClientQuiz) : ClientQuiz :=
  { id := q.id
    title := q.title
    description := q.description
    timer := q.timer
    password := q.password
    questions := []
    category := if q.category = "" then "General Knowledge" else q.category
    createdAt := q.createdAt
    isPublic := q.isPublic || false
    history := some (match q.history with | some h => h | none => [])
    version := some (match q.version with | some v => if v = 0 then 1 else v | none => 1)
    lastTaken := none }

/-- Positional map over the quiz list, as `prev.map((q, i) => ...)`. -/
def mapWithIdx (f : Nat → ClientQuiz → ClientQuiz) : Nat → List ClientQuiz → List ClientQuiz
  | _, [] => []
  | i, x :: xs => f i x :: mapWithIdx f (i + 1) xs

/-- handleUpdateQuiz of Quiz.tsx: validate the form (nonblank title, positive
timer, at least one fully filled question), then replace the quiz at the
edited index with the form contents; the stored quiz list is unchanged when
validation fails. -/
def clientHandleUpdateQuiz (quizzes : List ClientQuiz) (quizToEdit : Nat)
    (newQuiz : ClientQuiz) (newQuestions : List Question) : List ClientQuiz :=
  if jsTrim newQuiz.title == "" || newQuiz.timer ≤ 0 then quizzes
  else
    let questions := newQuestions.filter validQuestion
    if questions.isEmpty then quizzes
    else
      mapWithIdx
        (fun i q => if i = quizToEdit then { newQuiz with questions := questions } else q)
        0 quizzes

/-! ### Basic facts about the MemStorage map -/

theorem mapGet_mapSet_self (m : List (Nat × Quiz)) (k : Nat) (v : Quiz) :
    mapGet (mapSet m k v) k = some v := by
  induction m with
  | nil => simp [mapSet, mapGet]
  | cons p rest ih =>
    by_cases h : p.1 = k
    · simp [mapSet, h, mapGet]
    · cases p with
      | mk k' v' =>
        simp only [mapSet, mapGet, if_neg h]
        exact ih

theorem mapGet_mapSet_ne (m : List (Nat × Quiz)) (k : Nat) (v : Quiz) (k' : Nat)
    (h : k ≠ k') : mapGet (mapSet m k v) k' = mapGet m k' := by
  induction m with
  | nil => simp [mapSet, mapGet, h]
  | cons p rest ih =>
    cases p with
    | mk k0 v0 =>
      by_cases h0 : k0 = k
      · subst h0
        simp only [mapSet, if_pos rfl, mapGet, if_neg h]
      · simp only [mapSet, if_neg h0, mapGet]
        by_cases h1 : k0 = k'
        · rw [if_pos h1, if_pos h1]
        · rw [if_neg h1, if_neg h1]
          exact ih

theorem mapGet_mem {m : List (Nat × Quiz)} {k : Nat} {v : Quiz}
    (h : mapGet m k = some v) : (k, v) ∈ m := by
  induction m with
  | nil => simp [mapGet] at h
  | cons p rest ih =>
    cases p with
    | mk k0 v0 =>
      rw [mapGet] at h
      by_cases h0 : k0 = k
      · rw [if_pos h0] at h
        cases h
        subst h0
        exact List.mem_cons_self _ _
      · rw [if_neg h0] at h
        exact List.mem_cons_of_mem _ (ih h)

theorem mapGet_of_mem_nodup {m : List (Nat × Quiz)} {k : Nat} {v : Quiz}
    (hp : m.Pairwise (fun a b => a.1 ≠ b.1)) (hm : (k, v) ∈ m) :
    mapGet m k = some v := by
  induction m with
  | nil => simp at hm
  | cons p rest ih =>
    cases p with
    | mk k0 v0 =>
      rcases List.mem_cons.mp hm with h | h
      · cases h
        rw [mapGet, if_pos rfl]
      · have hne : k0 ≠ k := by
          have := (List.pairwise_cons.mp hp).1 (k, v) h
          simpa using this
        rw [mapGet, if_neg hne]
        exact ih (List.pairwise_cons.mp hp).2 h

theorem mapGet_eq_none_iff (m : List (Nat × Quiz)) (k : Nat) :
    mapGet m k = none ↔ k ∉ m.map Prod.fst := by
  induction m with
  | nil => simp [mapGet]
  | cons p rest ih =>
    cases p with
    | mk k0 v0 =>
      rw [mapGet]
      by_cases h0 : k0 = k
      · subst h0
        simp
      · rw [if_neg h0]
        simp only [List.map_cons, List.mem_cons]
        rw [ih]
        constructor
        · intro h hmem
          rcases hmem with hmem | hmem
          · exact h0 hmem.symm
          · exact h hmem
        · intro h
          exact fun hmem => h (Or.inr hmem)

theorem mapSet_keys_of_get_some {m : List (Nat × Quiz)} {k : Nat} {v0 : Quiz}
    (h : mapGet m k = some v0) (v : Quiz) :
    (mapSet m k v).map Prod.fst = m.map Prod.fst := by
  induction m with
  | nil => simp [mapGet] at h
  | cons p rest ih =>
    cases p with
    | mk k0 w0 =>
      rw [mapGet] at h
      by_cases h0 : k0 = k
      · subst h0
        simp [mapSet]
      · rw [if_neg h0] at h
        simp only [mapSet, if_neg h0, List.map_cons]
        rw [ih h]

theorem mapSet_append_of_get_none {m : List (Nat × Quiz)} {k : Nat}
    (h : mapGet m k = none) (v : Quiz) : mapSet m k v = m ++ [(k, v)] := by
  induction m with
  | nil => rfl
  | cons p rest ih =>
    cases p with
    | mk k0 w0 =>
      rw [mapGet] at h
      by_cases h0 : k0 = k
      · rw [if_pos h0] at h
        exact absurd h (by simp)
      · rw [if_neg h0] at h
        simp only [mapSet, if_neg h0, List.cons_append]
        rw [ih h]

theorem mem_mapSet {m : List (Nat × Quiz)} {k : Nat} {v : Quiz} {p : Nat × Quiz}
    (h : p ∈ mapSet m k v) : p = (k, v) ∨ p ∈ m := by
  induction m with
  | nil => simpa [mapSet] using h
  | cons q rest ih =>
    cases q with
    | mk k0 w0 =>
      by_cases h0 : k0 = k
      · simp only [mapSet, if_pos h0] at h
        rcases List.mem_cons.mp h with h | h
        · exact Or.inl h
        · exact Or.inr (List.mem_cons_of_mem _ h)
      · simp only [mapSet, if_neg h0] at h
        rcases List.mem_cons.mp h with h | h
        · exact Or.inr (by simp [h])
        · rcases ih h with h | h
          · exact Or.inl h
          · exact Or.inr (List.mem_cons_of_mem _ h)

theorem mapSet_pairwise {m : List (Nat × Quiz)} (k : Nat) (v : Quiz)
    (h : m.Pairwise (fun a b => a.1 ≠ b.1)) :
    (mapSet m k v).Pairwise (fun a b => a.1 ≠ b.1) := by
  induction m with
  | nil => simp [mapSet]
  | cons p rest ih =>
    cases p with
    | mk k0 w0 =>
      obtain ⟨hhead, htail⟩ := List.pairwise_cons.mp h
      by_cases h0 : k0 = k
      · subst h0
        simp only [mapSet, if_pos rfl]
        exact List.pairwise_cons.mpr ⟨fun b hb => hhead b hb, htail⟩
      · simp only [mapSet, if_neg h0]
        refine List.pairwise_cons.mpr ⟨?_, ih htail⟩
        intro b hb
        rcases mem_mapSet hb with hb | hb
        · subst hb
          simpa using h0
        · exact hhead b hb

/-! ### Well-formedness facts for MemStorage states -/

theorem getQuizByUniqueId_uniqueId {st : MemState} {uid : String} {e : Quiz}
    (h : getQuizByUniqueId st uid = some e) : e.uniqueId = uid := by
  have := List.find?_some h
  simpa using this

theorem getQuizByUniqueId_mapGet {st : MemState} {uid : String} {e : Quiz}
    (hwf : MemWF st) (h : getQuizByUniqueId st uid = some e) :
    mapGet st.quizzes e.id = some e := by
  have hmem : e ∈ st.quizzes.map Prod.snd := List.mem_of_find?_eq_some h
  obtain ⟨p, hp, hpe⟩ := List.mem_map.mp hmem
  have hid : p.2.id = p.1 := (hwf.2 p hp).1
  rw [← hpe, hid]
  exact mapGet_of_mem_nodup hwf.1 (by simpa using hp)

theorem mapGet_key_lt {st : MemState} {k : Nat} {q : Quiz} (hwf : MemWF st)
    (h : mapGet st.quizzes k = some q) : k < st.quizCurrentId :=
  (hwf.2 (k, q) (mapGet_mem h)).2

theorem mapGet_currentId_none {st : MemState} (hwf : MemWF st) :
    mapGet st.quizzes st.quizCurrentId = none := by
  rw [mapGet_eq_none_iff]
  intro hmem
  obtain ⟨p, hp, hpk⟩ := List.mem_map.mp hmem
  have := (hwf.2 p hp).2
  omega

theorem MemWF_create {st : MemState} (hwf : MemWF st) (uuid : String) (now : Nat)
    (q : InsertQuiz) : MemWF (memCreateQuiz uuid now st q).2 := by
  have hnone := mapGet_currentId_none hwf
  constructor
  · show (mapSet st.quizzes st.quizCurrentId _).Pairwise _
    rw [mapSet_append_of_get_none hnone]
    rw [List.pairwise_append]
    refine ⟨hwf.1, by simp, ?_⟩
    intro a ha b hb
    have hlt := (hwf.2 a ha).2
    simp only [List.mem_singleton] at hb
    subst hb
    simpa using Nat.ne_of_lt hlt
  · intro p hp
    rcases mem_mapSet hp with hp | hp
    · subst hp
      exact ⟨rfl, Nat.lt_succ_self _⟩
    · have := hwf.2 p hp
      exact ⟨this.1, by have := this.2; show p.1 < st.quizCurrentId + 1; omega⟩

theorem memCreateQuiz_preserves {st : MemState} {k : Nat} {q : Quiz} (hwf : MemWF st)
    (h : mapGet st.quizzes k = some q) (uuid : String) (now : Nat) (u : InsertQuiz) :
    mapGet (memCreateQuiz uuid now st u).2.quizzes k = some q := by
  have hlt := mapGet_key_lt hwf h
  show mapGet (mapSet st.quizzes st.quizCurrentId _) k = some q
  rw [mapGet_mapSet_ne _ _ _ _ (by omega)]
  exact h

theorem MemWF_set_existing {st : MemState} {id : Nat} {e v : Quiz} (hwf : MemWF st)
    (hget : mapGet st.quizzes id = some e) (hvid : v.id = id) :
    MemWF ⟨mapSet st.quizzes id v, st.quizCurrentId⟩ := by
  constructor
  · exact mapSet_pairwise id v hwf.1
  · intro p hp
    rcases mem_mapSet hp with hp | hp
    · subst hp
      have hlt : id < st.quizCurrentId := mapGet_key_lt hwf hget
      exact ⟨hvid, hlt⟩
    · exact hwf.2 p hp

theorem memUpdateQuiz_characterize {st : MemState} {id : Nat} {e : Quiz}
    (hget : mapGet st.quizzes id = some e) (u : InsertQuiz) :
    ∃ v, memUpdateQuiz st id u = some (v, ⟨mapSet st.quizzes id v, st.quizCurrentId⟩)
      ∧ v.id = e.id
      ∧ v.uniqueId = u.uniqueId ∧ v.title = u.title ∧ v.description = u.description
      ∧ v.questions = u.questions ∧ v.timer = u.timer ∧ v.category = u.category
      ∧ v.version = e.version + 1 := by
  rw [memUpdateQuiz, hget]
  dsimp only
  refine ⟨_, rfl, rfl, rfl, rfl, rfl, rfl, rfl, rfl, ?_⟩
  by_cases h0 : e.version = 0
  · rw [if_neg (by simpa using h0), h0]
    simp
  · rw [if_pos (by simpa using h0)]

/-! ### Claims C3, C4, C5: the reconciliation engine -/

/-- Claim C3: when the incoming record's version is greater than or equal to
the existing record's version, or either version is unset (falsy), the sync
replaces the stored record's content with the incoming content; the stored
version becomes existing.version + 1 (the update path bumps the existing
version), which is always strictly greater than the existing version, so the
version never moves backward; an exact tie also takes this branch. -/
theorem c3_incoming_wins_version_progresses (uuidGen : Nat → String) (now : Nat)
    (st : MemState) (seed : Nat) (r : InsertQuiz) (e : Quiz)
    (hwf : MemWF st)
    (hlook : getQuizByUniqueId st r.uniqueId = some e)
    (hcond : e.version = 0 ∨ r.version = none ∨ r.version = some 0
      ∨ ∃ v, r.version = some v ∧ e.version ≤ v) :
    ∃ q', memSyncQuizzes uuidGen now st seed [r]
        = ([q'], ⟨mapSet st.quizzes e.id q', st.quizCurrentId⟩)
      ∧ mapGet (mapSet st.quizzes e.id q') e.id = some q'
      ∧ q'.title = r.title ∧ q'.description = r.description
      ∧ q'.questions = r.questions ∧ q'.timer = r.timer ∧ q'.category = r.category
      ∧ q'.uniqueId = r.uniqueId
      ∧ q'.version = e.version + 1
      ∧ e.version < q'.version := by
  have hmge : mapGet st.quizzes e.id = some e := getQuizByUniqueId_mapGet hwf hlook
  have hsu : shouldUpdate e.version r.version = true := by
    rcases hcond with h | h | h | ⟨v, hv, hle⟩
    · simp [shouldUpdate, h]
    · simp [shouldUpdate, versionTruthy, h]
    · simp [shouldUpdate, versionTruthy, h]
    · simp [shouldUpdate, versionTruthy, hv, hle]
  obtain ⟨v, hupd, hvid, hvu, hvt, hvd, hvq, hvtm, hvc, hvv⟩ :=
    memUpdateQuiz_characterize hmge r
  refine ⟨v, ?_, ?_, hvt, hvd, hvq, hvtm, ?_, hvu, hvv, by omega⟩
  · rw [memSyncQuizzes, hlook]
    dsimp only
    rw [if_pos hsu, hupd]
    dsimp only
    rw [memSyncQuizzes]
  · exact mapGet_mapSet_self _ _ _
  · exact hvc

/-- A sample fully filled question. -/
def sampleQuestion : Question :=
  { question := "Q", answerDescription := "A", options := ["a", "b"],
    correctAnswer := "a", questionImages := [], answerImages := [] }

/-- Existing stored record for the canonical C3 scenario: id "x", version 3. -/
def c3Existing : Quiz :=
  { id := 1, uniqueId := "x", title := "Old", description := "od",
    questions := [sampleQuestion], timer := 300, category := "Science",
    history := none, createdAt := 0, lastTaken := none, password := none,
    isPublic := some true, createdBy := none, version := 3 }

def c3State : MemState := ⟨[(1, c3Existing)], 2⟩

/-- Incoming record for the canonical C3 scenario: same id "x", version 5. -/
def c3Incoming : InsertQuiz :=
  { uniqueId := "x", title := "New", description := "nd",
    questions := [sampleQuestion], timer := 200, category := "Science",
    history := none, createdAt := some 5, lastTaken := none, password := none,
    isPublic := some true, createdBy := none, version := some 5 }

/-- Witness for C3 at the canonical scenario (existing v=3, incoming v=5):
the merged record carries the incoming title and version 4 > 3. -/
theorem c3_witness :
    (memSyncQuizzes (fun _ => "u") 0 c3State 0 [c3Incoming]).1.map Quiz.version = [4]
    ∧ (memSyncQuizzes (fun _ => "u") 0 c3State 0 [c3Incoming]).1.map Quiz.title
      = ["New"] := by
  obtain ⟨q', heq, hmg, ht, hd, hq, htm, hc, hu, hv, hlt⟩ :=
    c3_incoming_wins_version_progresses (fun _ => "u") 0 c3State 0 c3Incoming c3Existing
      (by decide) rfl (Or.inr (Or.inr (Or.inr ⟨5, rfl, by decide⟩)))
  rw [heq]
  have hv3 : c3Existing.version = 3 := rfl
  rw [hv3] at hv
  constructor
  · simp [hv]
  · simp [ht]
    rfl

/-- Claim C4: when both versions are set (truthy) and the existing record's
version is strictly greater, the sync discards the incoming record and leaves
the whole state unchanged; the untouched existing record is reported back. -/
theorem c4_stale_incoming_discarded (uuidGen : Nat → String) (now : Nat)
    (st : MemState) (seed : Nat) (r : InsertQuiz) (e : Quiz) (v : Int)
    (hlook : getQuizByUniqueId st r.uniqueId = some e)
    (hev : e.version ≠ 0)
    (hrv : r.version = some v) (hv0 : v ≠ 0)
    (hlt : v < e.version) :
    memSyncQuizzes uuidGen now st seed [r] = ([e], st) := by
  have hsu : shouldUpdate e.version r.version = false := by
    simp [shouldUpdate, versionTruthy, hrv, hev, hv0]
    omega
  rw [memSyncQuizzes, hlook]
  dsimp only
  rw [if_neg (by simp [hsu])]
  rw [memSyncQuizzes]

/-- Existing stored record for the canonical C4 scenario: id "x", version 5. -/
def c4Existing : Quiz :=
  { id := 1, uniqueId := "x", title := "Newer", description := "nd",
    questions := [sampleQuestion], timer := 300, category := "Science",
    history := none, createdAt := 0, lastTaken := none, password := none,
    isPublic := some true, createdBy := none, version := 5 }

def c4State : MemState := ⟨[(1, c4Existing)], 2⟩

/-- Incoming record for the canonical C4 scenario: same id "x", version 3. -/
def c4Incoming : InsertQuiz :=
  { uniqueId := "x", title := "Stale", description := "sd",
    questions := [sampleQuestion], timer := 100, category := "Science",
    history := none, createdAt := some 9, lastTaken := none, password := none,
    isPublic := some true, createdBy := none, version := some 3 }

/-- Witness for C4 at the canonical scenario (existing v=5, incoming v=3). -/
theorem c4_witness :
    memSyncQuizzes (fun _ => "u") 0 c4State 0 [c4Incoming] = ([c4Existing], c4State) :=
  c4_stale_incoming_discarded (fun _ => "u") 0 c4State 0 c4Incoming c4Existing 3
    rfl (by decide) rfl (by decide) (by decide)

/-- Claim C5: reconciliation is a merge, not a replace-all: every stored
record whose uniqueId does not occur among the incoming records is still
present, with the same content and version, after syncQuizzes. -/
theorem c5_sync_is_merge_not_replace (uuidGen : Nat → String) (now : Nat) :
    ∀ (rs : List InsertQuiz) (st : MemState) (seed k : Nat) (q : Quiz),
      MemWF st →
      mapGet st.quizzes k = some q →
      (∀ r ∈ rs, r.uniqueId ≠ q.uniqueId) →
      mapGet (memSyncQuizzes uuidGen now st seed rs).2.quizzes k = some q := by
  intro rs
  induction rs with
  | nil =>
    intro st seed k q _ hmg _
    exact hmg
  | cons r rest ih =>
    intro st seed k q hwf hmg hab
    rw [memSyncQuizzes]
    cases hlook : getQuizByUniqueId st r.uniqueId with
    | none =>
      dsimp only
      exact ih _ _ k q (MemWF_create hwf _ _ _)
        (memCreateQuiz_preserves hwf hmg _ _ _)
        (fun r' hr' => hab r' (List.mem_cons_of_mem _ hr'))
    | some e =>
      dsimp only
      have hmge : mapGet st.quizzes e.id = some e := getQuizByUniqueId_mapGet hwf hlook
      by_cases hsu : shouldUpdate e.version r.version = true
      · rw [if_pos hsu]
        obtain ⟨v, hupd, hvid, hvu, _, _, _, _, _, _⟩ := memUpdateQuiz_characterize hmge r
        rw [hupd]
        dsimp only
        have hkne : e.id ≠ k := by
          intro hk
          rw [hk, hmg] at hmge
          have hqe : q = e := by injection hmge
          apply hab r (List.mem_cons_self r rest)
          rw [hqe, getQuizByUniqueId_uniqueId hlook]
        apply ih _ _ k q
        · exact MemWF_set_existing hwf hmge hvid
        · show mapGet (mapSet st.quizzes e.id v) k = some q
          rw [mapGet_mapSet_ne _ _ _ _ hkne]
          exact hmg
        · exact fun r' hr' => hab r' (List.mem_cons_of_mem _ hr')
      · rw [if_neg hsu]
        dsimp only
        exact ih _ _ k q hwf hmg (fun r' hr' => hab r' (List.mem_cons_of_mem _ hr'))

/-- A stored record not mentioned by the incoming batch of the C5 witness. -/
def c5Other : Quiz :=
  { id := 1, uniqueId := "a", title := "Keep", description := "kd",
    questions := [sampleQuestion], timer := 60, category := "Science",
    history := none, createdAt := 0, lastTaken := none, password := none,
    isPublic := some true, createdBy := none, version := 2 }

def c5State : MemState := ⟨[(1, c5Other)], 2⟩

/-- Incoming record with a different uniqueId (creates a new record). -/
def c5Incoming : InsertQuiz :=
  { uniqueId := "b", title := "Fresh", description := "fd",
    questions := [sampleQuestion], timer := 30, category := "Science",
    history := none, createdAt := some 7, lastTaken := none, password := none,
    isPublic := some true, createdBy := none, version := some 1 }

/-- Witness for C5: after syncing an unrelated incoming record, the stored
record with uniqueId "a" is still present unchanged under its key. -/
theorem c5_witness :
    mapGet (memSyncQuizzes (fun _ => "u") 0 c5State 0 [c5Incoming]).2.quizzes 1
      = some c5Other :=
  c5_sync_is_merge_not_replace (fun _ => "u") 0 [c5Incoming] c5State 0 1 c5Other
    (by decide) rfl (by decide)

/-! ### Claim C1: behaviour of the sync endpoint on a malformed batch -/

theorem parseSyncBody_none_of_mem {rs : List RawQuiz} {r : RawQuiz} (hr : r ∈ rs)
    (hbad : parseInsertQuiz r = none) : parseSyncBody rs = none := by
  induction rs with
  | nil => cases hr
  | cons x xs ih =>
    rcases List.mem_cons.mp hr with h | h
    · subst h
      rw [parseSyncBody, hbad]
    · rw [parseSyncBody]
      cases hx : parseInsertQuiz x with
      | none => rfl
      | some q =>
        rw [ih h]

/-- Claim C1 (amended): when any record of the incoming batch fails schema
validation, the sync endpoint rejects the whole request with the 400
"Invalid sync data" response and leaves storage untouched — not even the
well-formed records of the batch are merged. -/
theorem c1_amended_batch_rejected_whole (uuidGen : Nat → String) (now : Nat)
    (st : MemState) (seed : Nat) (rs : List RawQuiz) (r : RawQuiz)
    (hr : r ∈ rs) (hbad : parseInsertQuiz r = none) :
    postSyncQuizzes uuidGen now st seed rs = (Except.error "Invalid sync data", st) := by
  rw [postSyncQuizzes, parseSyncBody_none_of_mem hr hbad]

/-- A well-formed incoming record. -/
def c1Good : RawQuiz :=
  { uniqueId := some "g", title := some "Good", description := some "gd",
    questions := some [sampleQuestion], timer := some 300, category := some "Science",
    history := none, createdAt := none, lastTaken := none, password := none,
    isPublic := some true, createdBy := none, version := some 1 }

/-- A malformed incoming record: the required title field is missing. -/
def c1Bad : RawQuiz :=
  { uniqueId := some "b", title := none, description := some "bd",
    questions := some [sampleQuestion], timer := some 300, category := some "Science",
    history := none, createdAt := none, lastTaken := none, password := none,
    isPublic := some true, createdBy := none, version := some 1 }

def c1State : MemState := ⟨[], 1⟩

/-- Counterexample to C1 as stated: a batch holding one well-formed and one
malformed record is rejected whole by the sync handler — the request errors,
the state is unchanged, and the well-formed record is NOT merged (no record
with its uniqueId exists afterwards), contradicting the claim that only the
single bad record is rejected while the rest of the batch is merged. -/
theorem c1_counterexample :
    postSyncQuizzes (fun _ => "u") 0 c1State 0 [c1Good, c1Bad]
      = (Except.error "Invalid sync data", c1State)
    ∧ getQuizByUniqueId (postSyncQuizzes (fun _ => "u") 0 c1State 0 [c1Good, c1Bad]).2 "g"
      = none :=
  ⟨rfl, rfl⟩

/-- Witness for the amended C1 at the concrete mixed batch. -/
theorem c1_amended_witness :
    postSyncQuizzes (fun _ => "u") 0 c1State 0 [c1Good, c1Bad]
      = (Except.error "Invalid sync data", c1State) :=
  c1_amended_batch_rejected_whole (fun _ => "u") 0 c1State 0 [c1Good, c1Bad] c1Bad
    (List.mem_cons_of_mem _ (List.mem_cons_self _ _)) rfl

/-! ### Claim C2: version discipline of the update paths -/

theorem mapWithIdx_getElem (f : Nat → ClientQuiz → ClientQuiz) :
    ∀ (l : List ClientQuiz) (i0 j : Nat) (v : ClientQuiz), l[j]? = some v →
      (mapWithIdx f i0 l)[j]? = some (f (i0 + j) v) := by
  intro l
  induction l with
  | nil => intro i0 j v h; simp at h
  | cons x xs ih =>
    intro i0 j v h
    cases j with
    | zero =>
      simp only [List.getElem?_cons_zero, Option.some.injEq] at h
      subst h
      simp [mapWithIdx]
    | succ j' =>
      simp only [List.getElem?_cons_succ] at h
      rw [mapWithIdx]
      simp only [List.getElem?_cons_succ]
      rw [ih (i0 + 1) j' v h]
      have harith : i0 + 1 + j' = i0 + (j' + 1) := by omega
      rw [harith]

/-- Claim C2 (amended): the server-side update path (MemStorage.updateQuiz,
and identically DbStorage.updateQuiz) always sets the stored version to
exactly the previous stored version plus 1 (the falsy-version branch stores
1, which equals 0 + 1), and a record created without a version starts at
version 1; but the client-side local-edit path (handleUpdateQuiz) commits the
edit form's version unchanged — a local client edit does not increment the
stored version. -/
theorem c2_version_increment_server_only :
    (∀ (st : MemState) (id : Nat) (u : InsertQuiz) (v : Quiz) (st' : MemState) (e : Quiz),
        memUpdateQuiz st id u = some (v, st') → mapGet st.quizzes id = some e →
        v.version = e.version + 1)
    ∧ (∀ (uuid : String) (now : Nat) (st : MemState) (u : InsertQuiz),
        u.version = none → ((memCreateQuiz uuid now st u).1).version = 1)
    ∧ (∀ (quizzes : List ClientQuiz) (idx : Nat) (nq : ClientQuiz) (nqs : List Question)
        (v0 : ClientQuiz),
        quizzes[idx]? = some v0 →
        jsTrim nq.title ≠ "" → ¬ nq.timer ≤ 0 → nqs.filter validQuestion ≠ [] →
        ((clientHandleUpdateQuiz quizzes idx nq nqs)[idx]?).map ClientQuiz.version
          = some nq.version) := by
  refine ⟨?_, ?_, ?_⟩
  · intro st id u v st' e hupd hget
    obtain ⟨w, hw, _, _, _, _, _, _, _, hwv⟩ := memUpdateQuiz_characterize hget u
    rw [hupd] at hw
    have hvw : v = w := congrArg Prod.fst (Option.some.inj hw)
    rw [hvw]
    exact hwv
  · intro uuid now st u hv
    simp [memCreateQuiz, hv]
  · intro quizzes idx nq nqs v0 hget ht htm hq
    rw [clientHandleUpdateQuiz]
    rw [if_neg (by simp [ht, htm])]
    dsimp only
    rw [if_neg (by simp [List.isEmpty_iff, hq])]
    rw [mapWithIdx_getElem _ quizzes 0 idx v0 hget]
    simp

/-- A stored client quiz at version 3 holding one valid question. -/
def c2Stored : ClientQuiz :=
  { id := "q1", title := "T", description := "d", questions := [sampleQuestion],
    timer := 300, lastTaken := none, password := none, category := "Science",
    history := some [], createdAt := 0, isPublic := false, version := some 3 }

/-- The edit form for c2Stored after handlePasswordSubmit, with the title
changed by the user. -/
def c2EditedForm : ClientQuiz := { clientLoadQuizForEdit c2Stored with title := "T2" }

/-- Counterexample to C2 as stated: committing a local edit of a version-3
quiz through handleUpdateQuiz stores version 3 again, not 4 — the accepted
content mutation does not increment the stored version. -/
theorem c2_counterexample :
    (clientHandleUpdateQuiz [c2Stored] 0 c2EditedForm c2Stored.questions).map
        ClientQuiz.version = [some 3]
    ∧ (clientHandleUpdateQuiz [c2Stored] 0 c2EditedForm c2Stored.questions).map
        ClientQuiz.version ≠ [some 4] := by
  exact ⟨by decide, by decide⟩

/-- Server-side concrete instances for the C2 witness. -/
def c2ServerState : MemState := ⟨[(1, c4Existing)], 2⟩

def c2Updated : Quiz :=
  { id := 1, uniqueId := "x", title := "Stale", description := "sd",
    questions := [sampleQuestion], timer := 100, category := "Science",
    history := none, createdAt := 9, lastTaken := none, password := none,
    isPublic := some true, createdBy := none, version := 6 }

def c2UpdatedState : MemState := ⟨mapSet c2ServerState.quizzes 1 c2Updated, 2⟩

def c2NoVersionInsert : InsertQuiz :=
  { uniqueId := "n", title := "NV", description := "nv",
    questions := [sampleQuestion], timer := 60, category := "Science",
    history := none, createdAt := some 0, lastTaken := none, password := none,
    isPublic := some true, createdBy := none, version := none }

def c2CreateState : MemState := ⟨[], 1⟩

/-- Witness for the amended C2: a server update bumps 5 to 6 = 5 + 1, a
version-free creation starts at 1, and the committed client edit keeps the
form's version. -/
theorem c2_amended_witness :
    c2Updated.version = c4Existing.version + 1
    ∧ ((memCreateQuiz "u" 0 c2CreateState c2NoVersionInsert).1).version = 1
    ∧ ((clientHandleUpdateQuiz [c2Stored] 0 c2EditedForm c2Stored.questions)[0]?).map
        ClientQuiz.version = some c2EditedForm.version := by
  refine ⟨?_, ?_, ?_⟩
  · exact c2_version_increment_server_only.1 c2ServerState 1 c4Incoming c2Updated
      c2UpdatedState c4Existing (by decide) (by decide)
  · exact c2_version_increment_server_only.2.1 "u" 0 c2CreateState c2NoVersionInsert rfl
  · exact c2_version_increment_server_only.2.2 [c2Stored] 0 c2EditedForm
      c2Stored.questions c2Stored (by decide) (by decide) (by decide) (by decide)
